import Mathlib

/-!
Verification of the receding-horizon MPC core in `src/bin/nle.py` (WattCast).

The embedding below follows the Python source function by function:

* `run_opt` (nle.py lines 36-126) builds a constrained optimization model and
  hands it to an external solver (CPLEX).  The solve itself is external, so it
  is modelled by an `Oracle`: an arbitrary function producing an assignment
  (`Sol`) of the model's decision variables.  The constraints the model imposes
  are captured by the predicate `Feasible`, and the objective by `cost`, both
  transcribed from the source.  `run_opt` then extracts row index 1 of the
  result table (`res_df.iloc[1]`), which raises an out-of-range error when the
  horizon has fewer than two indices; that failure is modelled by `Option`.
* `run_operations` (lines 129-175) drives the loop; each forecast window is a
  pandas DataFrame whose column 0 holds the (forecast) demand and whose column
  1 holds the joined ground-truth series, modelled by `Window`.
* `calculate_operational_costs` (lines 178-191) and the computational core of
  `run_nle` (lines 194-260) follow; file and experiment-tracking I/O, which is
  out of scope, is dropped, and the pandas time-index joins are abstracted by
  letting every window carry its aligned ground-truth column (`Window.col1`).

Machine floats are modelled by `ℚ`.
-/

/-- `Config` (utils/model_utils.Config, fields as consumed by nle.py and
described in the spec, section 6): static system/economic parameters. -/
structure Config where
  bat_size_kwh : ℚ
  bat_efficiency : ℚ
  bat_max_power : ℚ
  bat_end_soc_weight : ℚ
  peak_cost : ℚ
  peak_init : ℚ
  bat_initial_soc : ℚ

/-- An assignment of the decision variables of the optimization model built by
`run_opt` (nle.py lines 56-62): `net_load`, `peak`, `dev_peak_plus`,
`dev_peak_minus`, `bss_p_ch`, `bss_en`.  Time-indexed variables are total
functions on `ℕ`; only indices below the horizon length are constrained. -/
structure Sol where
  net_load : ℕ → ℚ
  peak : ℚ
  dev_peak_plus : ℚ
  dev_peak_minus : ℚ
  bss_p_ch : ℕ → ℚ
  bss_en : ℕ → ℚ

/-- The mapping returned by `run_opt` (nle.py line 124): the values of
`net_load`, `bss_p_ch`, `bss_en` at time index 1 of the solved horizon. -/
structure StepDecision where
  net_load : ℚ
  bss_p_ch : ℚ
  bss_en : ℚ

/-- One forecast window (`df_mpc`): a DataFrame whose column 0 is the demand
forecast used for solving and whose column 1 is the joined ground-truth
series, aligned on the window's time index (see `run_nle`, lines 224-247). -/
structure Window where
  col0 : List ℚ
  col1 : List ℚ

/-- One row of the `operations` record built by `run_operations`
(nle.py lines 161-173): the `StepDecision` fields together with the realized
load, realized net load, updated peak and the forecast value at index 0.
`time` is the dictionary key `set_point_time = t + 1`. -/
structure Row where
  time : ℕ
  net_load : ℚ
  bss_p_ch : ℚ
  bss_en : ℚ
  load : ℚ
  opr_net_load : ℚ
  peak : ℚ
  forecast : ℚ

/-- Default row used with `List.getD` in theorem statements. -/
def dRow : Row := ⟨0, 0, 0, 0, 0, 0, 0, 0⟩

/-- Default window used with `List.getD` in theorem statements. -/
def dWin : Window := ⟨[], []⟩

/-- The external solver (`SolverFactory("cplex")`, nle.py line 116), modelled
as an arbitrary function of `run_opt`'s inputs. -/
def Oracle : Type := List ℚ → ℚ → ℚ → Config → Sol

/-- The constraints of the optimization model built by `run_opt`
(nle.py lines 64-100) together with the variable domains (lines 57-62):
`energy_balance`, `operation_peak`, `relevant_peak`, `bat_soc`,
`bat_lim_energy`, `bat_lim_power_pos`, `bat_lim_power_neg`, and
non-negativity of `peak`, `dev_peak_plus`, `dev_peak_minus`, `bss_en`. -/
def Feasible (load_forecast : List ℚ) (bss_energy peak : ℚ) (config : Config)
    (s : Sol) : Prop :=
  (∀ t, t < load_forecast.length →
      s.net_load t = config.bat_efficiency * s.bss_p_ch t + load_forecast.getD t 0)
  ∧ (∀ t, t < load_forecast.length → s.net_load t ≤ s.peak)
  ∧ (s.peak - peak = s.dev_peak_plus - s.dev_peak_minus)
  ∧ (∀ t, t < load_forecast.length →
      s.bss_en t = (if t = 0 then bss_energy else s.bss_en (t - 1)) + s.bss_p_ch t)
  ∧ (∀ t, t < load_forecast.length → s.bss_en t ≤ config.bat_size_kwh)
  ∧ (∀ t, t < load_forecast.length → s.bss_p_ch t ≤ config.bat_max_power)
  ∧ (∀ t, t < load_forecast.length → -config.bat_max_power ≤ s.bss_p_ch t)
  ∧ 0 ≤ s.peak
  ∧ 0 ≤ s.dev_peak_plus
  ∧ 0 ≤ s.dev_peak_minus
  ∧ (∀ t, t < load_forecast.length → 0 ≤ s.bss_en t)

/-- The objective of the optimization model (`cost`, nle.py lines 102-112):
terminal term plus the two peak terms. -/
def cost (load_forecast : List ℚ) (bss_energy peak : ℚ) (config : Config)
    (s : Sol) : ℚ :=
  let terminal_cost_weight := config.bat_end_soc_weight
  let final_soc := s.bss_en (load_forecast.length - 1)
  let terminal_cost := terminal_cost_weight * (final_soc - bss_energy) ^ 2
  let above_peak_costs := (s.dev_peak_plus + peak) * config.peak_cost
  let below_peak_reward := (s.dev_peak_minus + peak) * config.peak_cost
  let peak_costs := above_peak_costs + below_peak_reward
  peak_costs + terminal_cost

/-- `run_opt` (nle.py lines 36-126): solve the model (delegated to the
oracle) and extract `res_df.iloc[1]`; the extraction is out of range unless
the horizon has at least two time indices, which is modelled by `none`. -/
def run_opt (oracle : Oracle) (load_forecast : List ℚ) (bss_energy peak : ℚ)
    (config : Config) : Option StepDecision :=
  let s := oracle load_forecast bss_energy peak config
  if 1 < load_forecast.length then
    some { net_load := s.net_load 1, bss_p_ch := s.bss_p_ch 1, bss_en := s.bss_en 1 }
  else
    none

/-- One iteration of the loop body of `run_operations` (nle.py lines 139-173):
solve on window `w`, realize against `next` (the window at `t + 1`), update
the peak, and assemble the record row.  Out-of-range accesses
(`.iloc[[0], [1]]` on an empty column, `max` of an empty list) are modelled by
`none`. -/
def opStep (oracle : Oracle) (config : Config) (t : ℕ) (peak energy : ℚ)
    (w next : Window) : Option Row :=
  match run_opt oracle w.col0 energy peak config with
  | none => none
  | some set_point =>
    match next.col1.head? with
    | none => none
    | some load_set_point_time =>
      let net_load := load_set_point_time + set_point.bss_p_ch
      match (if peak < net_load then (next.col0.max?).map (fun m => min net_load m)
             else some peak) with
      | none => none
      | some peak2 =>
        match w.col0.head? with
        | none => none
        | some fc =>
          some { time := t + 1, net_load := set_point.net_load,
                 bss_p_ch := set_point.bss_p_ch, bss_en := set_point.bss_en,
                 load := load_set_point_time, opr_net_load := net_load,
                 peak := peak2, forecast := fc }

/-- The loop of `run_operations` (nle.py lines 139-173): iterate over
`dfs_mpc[:-1]`, threading the updated peak and battery energy
(`energy_in_the_battery = set_point["bss_en"]`) into the next step. -/
def opsAux (oracle : Oracle) (config : Config) :
    ℕ → ℚ → ℚ → List Window → Option (List Row)
  | _, _, _, [] => some []
  | _, _, _, [_] => some []
  | t, peak, energy, w :: next :: rest =>
    match opStep oracle config t peak energy w next with
    | none => none
    | some row =>
      match opsAux oracle config (t + 1) row.peak row.bss_en (next :: rest) with
      | none => none
      | some rows => some (row :: rows)

/-- `run_operations` (nle.py lines 129-175): peak starts at
`config.peak_init`, battery energy at `config.bat_size_kwh *
config.bat_initial_soc`. -/
def run_operations (oracle : Oracle) (dfs_mpc : List Window) (config : Config) :
    Option (List Row) :=
  opsAux oracle config 0 config.peak_init
    (config.bat_size_kwh * config.bat_initial_soc) dfs_mpc

/-- `calculate_operational_costs` (nle.py lines 178-191):
`total_cost = df_operations["opr_net_load"].max() * config.peak_cost`.
The maximum of an empty column is modelled by `none`. -/
def calculate_operational_costs (df_operations : List Row) (config : Config) :
    Option ℚ :=
  ((df_operations.map Row.opr_net_load).max?).map (fun m => m * config.peak_cost)

/-- `gt_max = gt.max().values[0]` (nle.py line 218). -/
def gt_max (gt : List ℚ) : ℚ := (gt.max?).getD 0

/-- `gt_min = gt.min().values[0]` (nle.py line 219). -/
def gt_min (gt : List ℚ) : ℚ := (gt.min?).getD 0

/-- The scaling applied in `run_nle` (lines 224-247):
`(x - gt_min) / (gt_max - gt_min)`, with no guard on the denominator. -/
def nle_normalize (gt_mn gt_mx x : ℚ) : ℚ := (x - gt_mn) / (gt_mx - gt_mn)

/-- `dfs_mpc_gt` (nle.py lines 224-239): the baseline windows, in which the
ground-truth column is used both as the demand column and as the realization
column (the source joins `gt` twice and drops the forecast with
`.iloc[:, 1:]`), normalized by the ground truth's min/max. -/
def dfs_mpc_gt (gt : List ℚ) (wins : List Window) : List Window :=
  wins.map (fun w =>
    { col0 := w.col1.map (nle_normalize (gt_min gt) (gt_max gt)),
      col1 := w.col1.map (nle_normalize (gt_min gt) (gt_max gt)) })

/-- `dfs_mpc` (nle.py lines 245-248): the model windows, forecast in column 0
and joined ground truth in column 1, normalized by the ground truth's
min/max. -/
def dfs_mpc_model (gt : List ℚ) (wins : List Window) : List Window :=
  wins.map (fun w =>
    { col0 := w.col0.map (nle_normalize (gt_min gt) (gt_max gt)),
      col1 := w.col1.map (nle_normalize (gt_min gt) (gt_max gt)) })

/-- The computational core of `run_nle` (nle.py lines 194-260): run the
simulator on the baseline windows and on the model windows, score both, and
return `costs["total_cost"] - costs_gt["total_cost"]` (line 254).  File,
config-loading and experiment-tracking I/O are out of scope and dropped. -/
def run_nle_core (oracle : Oracle) (nle_config : Config) (gt : List ℚ)
    (wins : List Window) : Option ℚ :=
  match run_operations oracle (dfs_mpc_gt gt wins) nle_config with
  | none => none
  | some df_operations_gt =>
    match calculate_operational_costs df_operations_gt nle_config with
    | none => none
    | some costs_gt =>
      match run_operations oracle (dfs_mpc_model gt wins) nle_config with
      | none => none
      | some df_operations =>
        match calculate_operational_costs df_operations nle_config with
        | none => none
        | some costs => some (costs - costs_gt)

/-- The peak-update rule of `run_operations` (nle.py lines 156-159), as a
function of the incoming peak, the realized net load and the maximum of the
next window's demand column. -/
def peak_update (peak net_load ceiling : ℚ) : ℚ :=
  if peak < net_load then min net_load ceiling else peak

/-- C5: the objective minimized by the Horizon Solver equals
`(dev_peak_plus + monthly_peak) * peak_cost +
 (dev_peak_minus + monthly_peak) * peak_cost +
 terminal_weight * (battery_energy[H-1] - initial_energy)^2`,
where `terminal_weight` is `Config.bat_end_soc_weight` and `monthly_peak` is
the incoming running peak. -/
theorem C5_objective (load_forecast : List ℚ) (bss_energy peak : ℚ)
    (config : Config) (s : Sol) :
    cost load_forecast bss_energy peak config s
      = (s.dev_peak_plus + peak) * config.peak_cost
        + (s.dev_peak_minus + peak) * config.peak_cost
        + config.bat_end_soc_weight
            * (s.bss_en (load_forecast.length - 1) - bss_energy) ^ 2 := by
  simp only [cost]

/-- C9: `run_opt` extracts the `StepDecision` from row index 1 of the solved
results, so it is only defined for forecast windows of length at least 2; for
a window of length 1 the extraction is out of range and no decision is
returned. -/
theorem C9_run_opt_extraction (oracle : Oracle) (load_forecast : List ℚ)
    (bss_energy peak : ℚ) (config : Config) :
    (load_forecast.length = 1 →
      run_opt oracle load_forecast bss_energy peak config = none)
    ∧ (2 ≤ load_forecast.length →
      run_opt oracle load_forecast bss_energy peak config
        = some { net_load := (oracle load_forecast bss_energy peak config).net_load 1,
                 bss_p_ch := (oracle load_forecast bss_energy peak config).bss_p_ch 1,
                 bss_en := (oracle load_forecast bss_energy peak config).bss_en 1 }) := by
  constructor
  · intro h
    have hn : ¬ (1 < load_forecast.length) := by omega
    simp [run_opt, hn]
  · intro h
    have hp : 1 < load_forecast.length := by omega
    simp [run_opt, hp]

/-- C10: `run_nle` normalizes with denominator `gt_max - gt_min`, computed
from the ground truth with no guard; for a constant ground-truth series the
denominator is zero and the normalization divides by zero, and the
denominator is nonzero exactly when `gt_min < gt_max`. -/
theorem C10_normalization_guard (gt : List ℚ) (hne : gt ≠ []) :
    ((∀ x ∈ gt, ∀ y ∈ gt, x = y) →
      gt_max gt - gt_min gt = 0
      ∧ ∀ z, nle_normalize (gt_min gt) (gt_max gt) z = (z - gt_min gt) / 0)
    ∧ (gt_max gt - gt_min gt ≠ 0 ↔ gt_min gt < gt_max gt) := by
  obtain ⟨mx, hmx⟩ : ∃ mx, gt.max? = some mx := by
    cases h : gt.max? with
    | none => exact absurd (List.max?_eq_none_iff.mp h) hne
    | some mx => exact ⟨mx, rfl⟩
  obtain ⟨mn, hmn⟩ : ∃ mn, gt.min? = some mn := by
    cases h : gt.min? with
    | none => exact absurd (List.min?_eq_none_iff.mp h) hne
    | some mn => exact ⟨mn, rfl⟩
  have hmx_mem : mx ∈ gt := List.max?_mem (fun a b => max_choice a b) hmx
  have hmn_mem : mn ∈ gt := List.min?_mem (fun a b => min_choice a b) hmn
  have hmn_le : ∀ x ∈ gt, mn ≤ x :=
    (List.le_min?_iff (fun _ _ _ => le_min_iff) hmn).mp (le_refl mn)
  have hge : gt_min gt ≤ gt_max gt := by
    simp only [gt_min, gt_max, hmx, hmn, Option.getD_some]
    exact hmn_le mx hmx_mem
  have hminmax : gt_min gt = mn ∧ gt_max gt = mx := by
    simp [gt_min, gt_max, hmx, hmn]
  constructor
  · intro hconst
    have : mx = mn := hconst mx hmx_mem mn hmn_mem
    have hzero : gt_max gt - gt_min gt = 0 := by
      rw [hminmax.1, hminmax.2, this, sub_self]
    exact ⟨hzero, fun z => by rw [nle_normalize, hzero]⟩
  · constructor
    · intro h
      rcases lt_or_eq_of_le hge with h' | h'
      · exact h'
      · exact absurd (by rw [h', sub_self]) h
    · intro h
      exact sub_ne_zero_of_ne (ne_of_gt h)

/-- Unfolding `List.headD` through `List.head?`. -/
lemma headD_of_head? {l : List ℚ} {a d : ℚ} (h : l.head? = some a) :
    l.headD d = a := by
  cases l <;> simp_all

/-- Decomposition of a successful `opStep`: the produced row's fields in
terms of the solver output and the next window. -/
lemma opStep_eq_some {oracle : Oracle} {config : Config} {t : ℕ}
    {peak energy : ℚ} {w next : Window} {row : Row}
    (h : opStep oracle config t peak energy w next = some row) :
    ∃ sp realized,
      run_opt oracle w.col0 energy peak config = some sp
      ∧ next.col1.head? = some realized
      ∧ row.time = t + 1
      ∧ row.net_load = sp.net_load
      ∧ row.bss_p_ch = sp.bss_p_ch
      ∧ row.bss_en = sp.bss_en
      ∧ row.load = realized
      ∧ row.opr_net_load = realized + sp.bss_p_ch
      ∧ row.peak = peak_update peak row.opr_net_load ((next.col0.max?).getD 0)
      ∧ w.col0.head? = some row.forecast := by
  unfold opStep at h
  cases hsp : run_opt oracle w.col0 energy peak config with
  | none => simp [hsp] at h
  | some sp =>
  simp only [hsp] at h
  cases hrel : next.col1.head? with
  | none => simp [hrel] at h
  | some realized =>
  simp only [hrel] at h
  cases hpk : (if peak < realized + sp.bss_p_ch then
      (next.col0.max?).map (fun m => min (realized + sp.bss_p_ch) m)
    else some peak) with
  | none => simp [hpk] at h
  | some peak2 =>
  simp only [hpk] at h
  cases hfc : w.col0.head? with
  | none => simp [hfc] at h
  | some fc =>
  simp only [hfc, Option.some.injEq] at h
  subst h
  refine ⟨sp, realized, rfl, rfl, rfl, rfl, rfl, rfl, rfl, rfl, ?_, rfl⟩
  show peak2 = peak_update peak (realized + sp.bss_p_ch) ((next.col0.max?).getD 0)
  simp only [peak_update]
  by_cases hc : peak < realized + sp.bss_p_ch
  · rw [if_pos hc] at hpk ⊢
    obtain ⟨m, hm, hmin⟩ := Option.map_eq_some'.mp hpk
    rw [hm, Option.getD_some]
    exact hmin.symm
  · rw [if_neg hc] at hpk ⊢
    exact (Option.some_inj.mp hpk).symm

/-- A step succeeds whenever the current window has horizon at least 2 and
the next window has a nonempty ground-truth column and a nonempty demand
column. -/
lemma opStep_total {oracle : Oracle} {config : Config} {t : ℕ}
    {peak energy : ℚ} {w next : Window}
    (hw : 2 ≤ w.col0.length) (hn1 : next.col1 ≠ []) (hn0 : next.col0 ≠ []) :
    ∃ row, opStep oracle config t peak energy w next = some row := by
  have h1 : 1 < w.col0.length := hw
  obtain ⟨r, hr⟩ : ∃ r, next.col1.head? = some r := by
    cases hcol : next.col1 with
    | nil => exact absurd hcol hn1
    | cons a l => exact ⟨a, rfl⟩
  obtain ⟨fc, hfc⟩ : ∃ fc, w.col0.head? = some fc := by
    cases hcol : w.col0 with
    | nil => rw [hcol] at h1; simp at h1
    | cons a l => exact ⟨a, rfl⟩
  unfold opStep
  simp only [run_opt, if_pos h1, hr, hfc]
  by_cases hc : peak < r + (oracle w.col0 energy peak config).bss_p_ch 1
  · cases hm : next.col0.max? with
    | none => exact absurd (List.max?_eq_none_iff.mp hm) hn0
    | some m => simp [hc, hm]
  · simp [hc]

/-- Per-index characterization of a successful `opsAux` run: every produced
row's realized load comes from the head of the next window's column 1, its
realized net load is load plus charge power, and its peak comes from the
source's update rule applied to the previous peak and the maximum of the next
window's column 0. -/
lemma opsAux_fields (oracle : Oracle) (config : Config) :
    ∀ (dfs : List Window) (t : ℕ) (p e : ℚ) (rows : List Row),
      opsAux oracle config t p e dfs = some rows →
      ∀ i, i < rows.length →
        (rows.getD i dRow).load = ((dfs.getD (i + 1) dWin).col1.headD 0)
        ∧ (rows.getD i dRow).opr_net_load
            = (rows.getD i dRow).load + (rows.getD i dRow).bss_p_ch
        ∧ (rows.getD i dRow).peak
            = peak_update (if i = 0 then p else (rows.getD (i - 1) dRow).peak)
                ((rows.getD i dRow).opr_net_load)
                (((dfs.getD (i + 1) dWin).col0.max?).getD 0)
  | [], t, p, e, rows => by
    intro h i hi
    simp only [opsAux, Option.some.injEq] at h
    subst h
    simp at hi
  | [w], t, p, e, rows => by
    intro h i hi
    simp only [opsAux, Option.some.injEq] at h
    subst h
    simp at hi
  | w :: next :: rest, t, p, e, rows => by
    intro h i hi
    unfold opsAux at h
    cases hstep : opStep oracle config t p e w next with
    | none => simp [hstep] at h
    | some row =>
    simp only [hstep] at h
    cases hrec : opsAux oracle config (t + 1) row.peak row.bss_en (next :: rest) with
    | none => simp [hrec] at h
    | some rows2 =>
    simp only [hrec, Option.some.injEq] at h
    subst h
    obtain ⟨sp, realized, hsp, hrel, htime, hnl, hpch, hen, hload, hopr, hpk, hfc⟩ :=
      opStep_eq_some hstep
    cases i with
    | zero =>
      simp only [List.getD_cons_zero, List.getD_cons_succ, if_pos rfl]
      refine ⟨?_, ?_, ?_⟩
      · rw [hload, headD_of_head? hrel]
      · rw [hopr, hload, hpch]
      · exact hpk
    | succ j =>
      have hj : j < rows2.length := by simpa using hi
      have ih := opsAux_fields oracle config (next :: rest) (t + 1) row.peak row.bss_en
        rows2 hrec j hj
      simp only [List.getD_cons_succ]
      refine ⟨ih.1, ih.2.1, ?_⟩
      have hprev :
          (if j + 1 = 0 then p else ((row :: rows2).getD (j + 1 - 1) dRow).peak)
            = (if j = 0 then row.peak else (rows2.getD (j - 1) dRow).peak) := by
        cases j with
        | zero => simp
        | succ k => simp
      rw [hprev]
      exact ih.2.2

/-- A full run succeeds on well-formed windows, producing one row per window
but the last, keyed consecutively starting at `t + 1`. -/
lemma opsAux_total (oracle : Oracle) (config : Config) :
    ∀ (dfs : List Window) (t : ℕ) (p e : ℚ),
      (∀ w ∈ dfs, 2 ≤ w.col0.length ∧ w.col1 ≠ []) →
      ∃ rows, opsAux oracle config t p e dfs = some rows
        ∧ rows.length = dfs.length - 1
        ∧ rows.map Row.time = List.range' (t + 1) (dfs.length - 1)
  | [], t, p, e => by
    intro _
    exact ⟨[], rfl, rfl, rfl⟩
  | [w], t, p, e => by
    intro _
    exact ⟨[], rfl, rfl, rfl⟩
  | w :: next :: rest, t, p, e => by
    intro hw
    have hw0 : 2 ≤ w.col0.length := (hw w (by simp)).1
    have hn1 : next.col1 ≠ [] := (hw next (by simp)).2
    have hn0 : next.col0 ≠ [] := by
      have := (hw next (by simp)).1
      intro hcol
      rw [hcol] at this
      simp at this
    obtain ⟨row, hrow⟩ := @opStep_total oracle config t p e w next hw0 hn1 hn0
    obtain ⟨rows2, hrec, hlen, htimes⟩ := opsAux_total oracle config (next :: rest)
      (t + 1) row.peak row.bss_en (fun x hx => hw x (by simp [hx]))
    refine ⟨row :: rows2, ?_, ?_, ?_⟩
    · unfold opsAux
      simp only [hrow, hrec]
    · simp [hlen]
    · have htrow : row.time = t + 1 := by
        obtain ⟨sp, realized, _, _, htime, _⟩ := opStep_eq_some hrow
        exact htime
      have hlen2 : (w :: next :: rest).length - 1 = ((next :: rest).length - 1) + 1 := by
        simp
      rw [hlen2, List.range'_succ]
      simp only [List.map_cons, htrow, htimes]

/-- When the ceiling is at least the incoming peak, the source's update rule
agrees with the spec's `max`/`min` formula and cannot decrease the peak. -/
lemma peak_update_of_le {p nl c : ℚ} (h : p ≤ c) :
    peak_update p nl c = max p (min nl c) ∧ p ≤ peak_update p nl c := by
  unfold peak_update
  by_cases hc : p < nl
  · rw [if_pos hc]
    have h1 : p ≤ min nl c := le_min (le_of_lt hc) h
    exact ⟨(max_eq_right h1).symm, h1⟩
  · rw [if_neg hc]
    push_neg at hc
    have h2 : min nl c ≤ p := le_trans (min_le_left _ _) hc
    exact ⟨(max_eq_left h2).symm, le_refl p⟩

/-- C1 (amended): in every episode simulated by `run_operations`, the peak
recorded at step index `i` equals the source's update rule
`if realized_net_load > peak then min(realized_net_load, max(window_{t+1}
column 0)) else peak` applied to the previous peak; this equals the claimed
formula `max(PeakState_t, min(realized_net_load, max(window_{t+1})))` — and
in particular is non-decreasing — whenever the maximum of window `t+1`'s
demand column is at least the incoming peak, but not in general. -/
theorem C1_peak_recurrence_amended (oracle : Oracle) (config : Config)
    (dfs : List Window) (rows : List Row)
    (hrun : run_operations oracle dfs config = some rows)
    (i : ℕ) (hi : i < rows.length) :
    (rows.getD i dRow).peak
      = peak_update (if i = 0 then config.peak_init else (rows.getD (i - 1) dRow).peak)
          ((rows.getD i dRow).opr_net_load)
          (((dfs.getD (i + 1) dWin).col0.max?).getD 0)
    ∧ ((if i = 0 then config.peak_init else (rows.getD (i - 1) dRow).peak)
          ≤ ((dfs.getD (i + 1) dWin).col0.max?).getD 0 →
        (rows.getD i dRow).peak
          = max (if i = 0 then config.peak_init else (rows.getD (i - 1) dRow).peak)
              (min ((rows.getD i dRow).opr_net_load)
                (((dfs.getD (i + 1) dWin).col0.max?).getD 0))
        ∧ (if i = 0 then config.peak_init else (rows.getD (i - 1) dRow).peak)
            ≤ (rows.getD i dRow).peak) := by
  have hfields := opsAux_fields oracle config dfs 0 config.peak_init
    (config.bat_size_kwh * config.bat_initial_soc) rows hrun i hi
  refine ⟨hfields.2.2, fun hceil => ?_⟩
  obtain ⟨heq, hle⟩ :=
    @peak_update_of_le _ ((rows.getD i dRow).opr_net_load) _ hceil
  rw [hfields.2.2]
  exact ⟨heq, hle⟩

/-- C2 (amended): at every step of `run_operations`, the realized load is
fetched from row 0 of column index 1 of forecast window `t+1` — the joined
ground-truth column, i.e. the second column, not the first — so the decision
is applied against the ground truth, not the forecast used to make the
decision. -/
theorem C2_realized_load_amended (oracle : Oracle) (config : Config)
    (dfs : List Window) (rows : List Row)
    (hrun : run_operations oracle dfs config = some rows)
    (i : ℕ) (hi : i < rows.length) :
    (rows.getD i dRow).load = ((dfs.getD (i + 1) dWin).col1.headD 0) :=
  (opsAux_fields oracle config dfs 0 config.peak_init
    (config.bat_size_kwh * config.bat_initial_soc) rows hrun i hi).1

/-- C8: for every ordered sequence of `N ≥ 2` well-formed forecast windows
and every `Config`, `run_operations` produces an `OperationRecord` with
exactly `N - 1` rows, keyed by realized time indices `1` through `N - 1` in
order. -/
theorem C8_trace_shape (oracle : Oracle) (dfs : List Window) (config : Config)
    (_hlen : 2 ≤ dfs.length)
    (hw : ∀ w ∈ dfs, 2 ≤ w.col0.length ∧ w.col1 ≠ []) :
    ∃ rows, run_operations oracle dfs config = some rows
      ∧ rows.length = dfs.length - 1
      ∧ rows.map Row.time = List.range' 1 (dfs.length - 1) :=
  opsAux_total oracle config dfs 0 config.peak_init
    (config.bat_size_kwh * config.bat_initial_soc) hw

/-- C4 (amended): for a forecast window sequence with fewer than 2 windows,
`run_operations` silently returns an empty `OperationRecord` (zero rows); no
explicit "insufficient data" condition is reported. -/
theorem C4_short_sequence_amended (oracle : Oracle) (dfs : List Window)
    (config : Config) (h : dfs.length < 2) :
    run_operations oracle dfs config = some [] := by
  cases dfs with
  | nil => rfl
  | cons a l =>
    cases l with
    | nil => rfl
    | cons b l2 =>
      exact absurd h (by simp [Nat.not_lt])

/-- C3 (amended): for every `Config` and forecast window sequence of length
exactly 2 on which the run succeeds and whose solver output satisfies the
model constraints, the battery state after the single realized step equals
`initial_energy + bss_p_ch[0] + bss_p_ch[1]` (the charge power at the "now"
index plus the one of the realized `StepDecision`), and lies within
`[0, capacity]`. -/
theorem C3_battery_state_amended (oracle : Oracle) (config : Config)
    (w0 w1 : Window) (rows : List Row)
    (hrun : run_operations oracle [w0, w1] config = some rows)
    (hfeas : Feasible w0.col0 (config.bat_size_kwh * config.bat_initial_soc)
        config.peak_init config
        (oracle w0.col0 (config.bat_size_kwh * config.bat_initial_soc)
          config.peak_init config)) :
    ∃ row, rows = [row]
      ∧ row.bss_en
          = config.bat_size_kwh * config.bat_initial_soc
            + (oracle w0.col0 (config.bat_size_kwh * config.bat_initial_soc)
                config.peak_init config).bss_p_ch 0
            + (oracle w0.col0 (config.bat_size_kwh * config.bat_initial_soc)
                config.peak_init config).bss_p_ch 1
      ∧ 0 ≤ row.bss_en
      ∧ row.bss_en ≤ config.bat_size_kwh := by
  unfold run_operations at hrun
  unfold opsAux at hrun
  cases hstep : opStep oracle config 0 config.peak_init
      (config.bat_size_kwh * config.bat_initial_soc) w0 w1 with
  | none => simp [hstep] at hrun
  | some row =>
  simp only [hstep, opsAux, Option.some.injEq] at hrun
  subst hrun
  obtain ⟨sp, realized, hsp, hrel, htime, hnl, hpch, hen, hload, hopr, hpk, hfc⟩ :=
    opStep_eq_some hstep
  by_cases hL : 1 < w0.col0.length
  · simp only [run_opt, if_pos hL, Option.some_inj] at hsp
    set s := oracle w0.col0 (config.bat_size_kwh * config.bat_initial_soc)
      config.peak_init config with hs
    have hen1 : row.bss_en = s.bss_en 1 := by rw [hen, ← hsp]
    have hsoc := hfeas.2.2.2.1
    have h0len : 0 < w0.col0.length := by omega
    have hsoc0 : s.bss_en 0 = config.bat_size_kwh * config.bat_initial_soc + s.bss_p_ch 0 := by
      simpa using hsoc 0 h0len
    have hsoc1 : s.bss_en 1 = s.bss_en 0 + s.bss_p_ch 1 := by
      simpa using hsoc 1 hL
    refine ⟨row, rfl, ?_, ?_, ?_⟩
    · rw [hen1, hsoc1, hsoc0]
    · rw [hen1]
      exact hfeas.2.2.2.2.2.2.2.2.2.2 1 hL
    · rw [hen1]
      exact hfeas.2.2.2.2.1 1 hL
  · simp [run_opt, hL] at hsp

/-- C6: for every non-empty completed `OperationRecord` and `Config`, the
Cost Evaluator returns `total_cost = (maximum realized net load over all
steps) * peak_cost`, depending on nothing else; scaling `peak_cost` by a
positive factor `k` while holding the trace fixed scales `total_cost` by
exactly `k`. -/
theorem C6_cost_evaluator (rows : List Row) (config : Config) (hne : rows ≠ []) :
    ∃ m, m ∈ rows.map Row.opr_net_load
      ∧ (∀ x ∈ rows.map Row.opr_net_load, x ≤ m)
      ∧ calculate_operational_costs rows config = some (m * config.peak_cost)
      ∧ ∀ k : ℚ, 0 < k →
          calculate_operational_costs rows
              { config with peak_cost := k * config.peak_cost }
            = some (k * (m * config.peak_cost)) := by
  obtain ⟨m, hm⟩ : ∃ m, (rows.map Row.opr_net_load).max? = some m := by
    cases h : (rows.map Row.opr_net_load).max? with
    | none =>
      have hmap := List.max?_eq_none_iff.mp h
      rw [List.map_eq_nil_iff] at hmap
      exact absurd hmap hne
    | some m => exact ⟨m, rfl⟩
  refine ⟨m, List.max?_mem (fun a b => max_choice a b) hm, ?_, ?_, ?_⟩
  · exact fun x hx =>
      ((List.max?_le_iff (fun _ _ _ => max_le_iff) hm).mp (le_refl m)) x hx
  · unfold calculate_operational_costs
    rw [hm]
    rfl
  · intro k hk
    unfold calculate_operational_costs
    rw [hm]
    exact congrArg some (by ring)

/-- C7: the Scenario Orchestrator reports
`NLE = cost(model run) - cost(ground-truth baseline run)`, and when the
model's forecast windows agree with the ground truth value for value the two
runs coincide and `NLE = 0`. -/
theorem C7_nle_delta_and_symmetry (oracle : Oracle) (config : Config)
    (gt : List ℚ) (wins : List Window) :
    (∀ ops_gt ops : List Row,
        run_operations oracle (dfs_mpc_gt gt wins) config = some ops_gt →
        run_operations oracle (dfs_mpc_model gt wins) config = some ops →
        run_nle_core oracle config gt wins
          = (calculate_operational_costs ops_gt config).bind (fun costs_gt =>
              (calculate_operational_costs ops config).map (fun costs =>
                costs - costs_gt)))
    ∧ ((∀ w ∈ wins, w.col0 = w.col1) →
        ∀ v, run_nle_core oracle config gt wins = some v → v = 0) := by
  constructor
  · intro ops_gt ops h1 h2
    unfold run_nle_core
    simp only [h1, h2]
    cases hcg : calculate_operational_costs ops_gt config with
    | none => simp [hcg]
    | some cg =>
      cases hc : calculate_operational_costs ops config with
      | none => simp [hcg, hc]
      | some c => simp [hcg, hc]
  · intro hcols v hv
    have heq : dfs_mpc_model gt wins = dfs_mpc_gt gt wins := by
      unfold dfs_mpc_model dfs_mpc_gt
      apply List.map_congr_left
      intro w hw
      rw [hcols w hw]
    unfold run_nle_core at hv
    rw [heq] at hv
    cases hg : run_operations oracle (dfs_mpc_gt gt wins) config with
    | none => simp [hg] at hv
    | some ops =>
      simp only [hg] at hv
      cases hcg : calculate_operational_costs ops config with
      | none => simp [hcg] at hv
      | some cg =>
        simp only [hcg, Option.some.injEq] at hv
        rw [← hv]
        ring

/-- Example configuration: capacity 10, efficiency 1, max power 5, terminal
weight 0, peak cost 1, incoming peak 2, initial SOC 0. -/
def cfgC1 : Config := ⟨10, 1, 5, 0, 1, 2, 0⟩

/-- A solver assignment for the C1 scenario: idle battery, horizon peak 2. -/
def solC1 : Sol := ⟨fun _ => 1, 2, 0, 0, fun _ => 0, fun _ => 0⟩

/-- An oracle that always returns `solC1`. -/
def oracleC1 : Oracle := fun _ _ _ _ => solC1

/-- First window of the C1 scenario: forecast `[1, 1]`, ground truth `[1, 1]`. -/
def w0C1 : Window := ⟨[1, 1], [1, 1]⟩

/-- Second window of the C1 scenario: forecast `[1, 1]`, ground truth `[3, 3]`. -/
def w1C1 : Window := ⟨[1, 1], [3, 3]⟩

/-- The single record row produced in the C1 scenario. -/
def rowC1 : Row := ⟨1, 1, 0, 0, 3, 3, 1, 1⟩

/-- C1 (counterexample): a feasible solver assignment and a two-window
episode in which the realized net load (3) exceeds the incoming peak (2)
while the next window's demand-column maximum (1) is below it: the recorded
peak drops to 1, so the peak is not `max(PeakState_t, min(realized_net_load,
max(window_{t+1})))` (which is 2) and is not non-decreasing. -/
theorem C1_counterexample :
    run_operations oracleC1 [w0C1, w1C1] cfgC1 = some [rowC1]
    ∧ Feasible w0C1.col0 (cfgC1.bat_size_kwh * cfgC1.bat_initial_soc)
        cfgC1.peak_init cfgC1
        (oracleC1 w0C1.col0 (cfgC1.bat_size_kwh * cfgC1.bat_initial_soc)
          cfgC1.peak_init cfgC1)
    ∧ rowC1.peak < cfgC1.peak_init
    ∧ rowC1.peak
        ≠ max cfgC1.peak_init
            (min rowC1.opr_net_load ((w1C1.col0.max?).getD 0)) := by
  refine ⟨?_, ?_, ?_, ?_⟩
  · norm_num [run_operations, opsAux, opStep, run_opt, oracleC1, solC1, cfgC1,
      w0C1, w1C1, rowC1, List.max?_cons, min_def]
  · unfold Feasible
    refine ⟨?_, ?_, ?_, ?_, ?_, ?_, ?_, ?_, ?_, ?_, ?_⟩
    all_goals try norm_num [oracleC1, solC1, cfgC1, w0C1]
    all_goals (intro t ht
               have ht2 : t < 2 := ht
               interval_cases t <;> norm_num [oracleC1, solC1, cfgC1, w0C1])
  · norm_num [rowC1, cfgC1]
  · norm_num [rowC1, cfgC1, w1C1, List.max?_cons, min_def, max_def]

/-- C1 (witness): the amended recurrence instantiated on the concrete C1
episode at step index 0. -/
theorem C1_peak_recurrence_witness :
    rowC1.peak
      = peak_update cfgC1.peak_init rowC1.opr_net_load ((w1C1.col0.max?).getD 0) := by
  have h := C1_peak_recurrence_amended oracleC1 cfgC1 [w0C1, w1C1] [rowC1]
    (by norm_num [run_operations, opsAux, opStep, run_opt, oracleC1, solC1,
      cfgC1, w0C1, w1C1, rowC1, List.max?_cons, min_def]) 0 (by norm_num)
  simpa using h.1

/-- Example configuration for the C2 scenario: incoming peak 100 keeps the
peak branch inactive. -/
def cfgC2 : Config := ⟨10, 1, 5, 0, 1, 100, 0⟩

/-- A solver assignment for the C2 scenario: idle battery. -/
def solC2 : Sol := ⟨fun _ => 1, 100, 0, 0, fun _ => 0, fun _ => 0⟩

/-- An oracle that always returns `solC2`. -/
def oracleC2 : Oracle := fun _ _ _ _ => solC2

/-- First window of the C2 scenario. -/
def w0C2 : Window := ⟨[1, 1], [1, 1]⟩

/-- Second window of the C2 scenario: forecast column `[5, 5]` differs from
ground-truth column `[3, 3]` at row 0. -/
def w1C2 : Window := ⟨[5, 5], [3, 3]⟩

/-- The single record row produced in the C2 scenario. -/
def rowC2 : Row := ⟨1, 1, 0, 0, 3, 3, 100, 1⟩

/-- C2 (counterexample): in a two-window episode whose second window has
forecast column `[5, 5]` and ground-truth column `[3, 3]`, the realized load
recorded is 3 — the head of column index 1 — and not 5, the head of the
first column; so the realized load is not fetched from the first column. -/
theorem C2_counterexample :
    run_operations oracleC2 [w0C2, w1C2] cfgC2 = some [rowC2]
    ∧ rowC2.load = (w1C2.col1.headD 0)
    ∧ rowC2.load ≠ (w1C2.col0.headD 0) := by
  refine ⟨?_, by norm_num [rowC2, w1C2], by norm_num [rowC2, w1C2]⟩
  norm_num [run_operations, opsAux, opStep, run_opt, oracleC2, solC2, cfgC2,
    w0C2, w1C2, rowC2, List.max?_cons, min_def]

/-- C2 (witness): the amended statement instantiated on the concrete C2
episode at step index 0. -/
theorem C2_realized_load_witness :
    rowC2.load = (w1C2.col1.headD 0) := by
  have h := C2_realized_load_amended oracleC2 cfgC2 [w0C2, w1C2] [rowC2]
    (by norm_num [run_operations, opsAux, opStep, run_opt, oracleC2, solC2,
      cfgC2, w0C2, w1C2, rowC2, List.max?_cons, min_def]) 0 (by norm_num)
  simpa using h

/-- Example configuration for the C3 scenario: initial energy 0, incoming
peak 0. -/
def cfgC3 : Config := ⟨10, 1, 5, 0, 1, 0, 0⟩

/-- A feasible solver assignment for the C3 scenario that charges at both
horizon indices: `bss_p_ch = 1` everywhere, so `bss_en` goes 1, 2. -/
def solC3 : Sol := ⟨fun _ => 2, 2, 2, 0, fun _ => 1, fun t => if t = 0 then 1 else 2⟩

/-- An oracle that always returns `solC3`. -/
def oracleC3 : Oracle := fun _ _ _ _ => solC3

/-- First window of the C3 scenario. -/
def w0C3 : Window := ⟨[1, 1], [1, 1]⟩

/-- Second window of the C3 scenario. -/
def w1C3 : Window := ⟨[1, 1], [1, 1]⟩

/-- The single record row produced in the C3 scenario. -/
def rowC3 : Row := ⟨1, 2, 1, 2, 1, 2, 1, 1⟩

/-- C3 (counterexample): with a feasible solver assignment that also charges
at the "now" index (`bss_p_ch[0] = 1`), the battery state after the single
realized step is `bss_en[1] = 2`, which differs from
`initial_energy + battery_charge_power = 0 + 1 = 1`: the claimed formula
omits the charge applied at horizon index 0. -/
theorem C3_counterexample :
    run_operations oracleC3 [w0C3, w1C3] cfgC3 = some [rowC3]
    ∧ Feasible w0C3.col0 (cfgC3.bat_size_kwh * cfgC3.bat_initial_soc)
        cfgC3.peak_init cfgC3
        (oracleC3 w0C3.col0 (cfgC3.bat_size_kwh * cfgC3.bat_initial_soc)
          cfgC3.peak_init cfgC3)
    ∧ rowC3.bss_en
        ≠ cfgC3.bat_size_kwh * cfgC3.bat_initial_soc + rowC3.bss_p_ch := by
  refine ⟨?_, ?_, by norm_num [rowC3, cfgC3]⟩
  · norm_num [run_operations, opsAux, opStep, run_opt, oracleC3, solC3, cfgC3,
      w0C3, w1C3, rowC3, List.max?_cons, min_def]
  · unfold Feasible
    refine ⟨?_, ?_, ?_, ?_, ?_, ?_, ?_, ?_, ?_, ?_, ?_⟩
    all_goals try norm_num [oracleC3, solC3, cfgC3, w0C3]
    all_goals (intro t ht
               have ht2 : t < 2 := ht
               interval_cases t <;> norm_num [oracleC3, solC3, cfgC3, w0C3])

/-- C3 (witness): the amended statement instantiated on the concrete C3
episode. -/
theorem C3_battery_state_witness :
    rowC3.bss_en
      = cfgC3.bat_size_kwh * cfgC3.bat_initial_soc
        + (oracleC3 w0C3.col0 (cfgC3.bat_size_kwh * cfgC3.bat_initial_soc)
            cfgC3.peak_init cfgC3).bss_p_ch 0
        + (oracleC3 w0C3.col0 (cfgC3.bat_size_kwh * cfgC3.bat_initial_soc)
            cfgC3.peak_init cfgC3).bss_p_ch 1
    ∧ 0 ≤ rowC3.bss_en ∧ rowC3.bss_en ≤ cfgC3.bat_size_kwh := by
  obtain ⟨row, hrow, h1, h2, h3⟩ := C3_battery_state_amended oracleC3 cfgC3 w0C3 w1C3
    [rowC3]
    (by norm_num [run_operations, opsAux, opStep, run_opt, oracleC3, solC3,
      cfgC3, w0C3, w1C3, rowC3, List.max?_cons, min_def])
    (by unfold Feasible
        refine ⟨?_, ?_, ?_, ?_, ?_, ?_, ?_, ?_, ?_, ?_, ?_⟩
        all_goals try norm_num [oracleC3, solC3, cfgC3, w0C3]
        all_goals (intro t ht
                   have ht2 : t < 2 := ht
                   interval_cases t <;> norm_num [oracleC3, solC3, cfgC3, w0C3]))
  have hr : rowC3 = row := by simpa using hrow
  rw [hr]
  exact ⟨h1, h2, h3⟩

/-- C4 (counterexample): on a one-window sequence and on an empty sequence
`run_operations` returns an empty operation trace rather than any error
condition. -/
theorem C4_counterexample :
    run_operations oracleC1 [w0C1] cfgC1 = some ([] : List Row)
    ∧ run_operations oracleC1 ([] : List Window) cfgC1 = some ([] : List Row) :=
  ⟨rfl, rfl⟩

/-- C4 (witness): the amended statement instantiated on a concrete
one-window sequence. -/
theorem C4_short_sequence_witness :
    run_operations oracleC1 [w1C1] cfgC1 = some [] :=
  C4_short_sequence_amended oracleC1 [w1C1] cfgC1 (by norm_num)

/-- C6 (witness): the Cost Evaluator contract instantiated on the singleton
trace of the C1 scenario, with scale factor `k = 2`. -/
theorem C6_cost_evaluator_witness :
    calculate_operational_costs [rowC1] cfgC1
        = some (rowC1.opr_net_load * cfgC1.peak_cost)
    ∧ calculate_operational_costs [rowC1]
          { cfgC1 with peak_cost := 2 * cfgC1.peak_cost }
        = some (2 * (rowC1.opr_net_load * cfgC1.peak_cost)) := by
  obtain ⟨m, hmem, hub, hc, hs⟩ := C6_cost_evaluator [rowC1] cfgC1 (by simp)
  have hm : m = rowC1.opr_net_load := by simpa using hmem
  subst hm
  exact ⟨hc, hs 2 (by norm_num)⟩

/-- Ground-truth series for the C7 scenario. -/
def gt7 : List ℚ := [0, 1]

/-- The single window shape of the C7 scenario: forecast equals ground
truth. -/
def win7 : Window := ⟨[0, 1], [0, 1]⟩

/-- Window sequence for the C7 scenario. -/
def wins7 : List Window := [win7, win7]

/-- A solver assignment of all zeros. -/
def sol7 : Sol := ⟨fun _ => 0, 0, 0, 0, fun _ => 0, fun _ => 0⟩

/-- An oracle that always returns `sol7`. -/
def oracle7 : Oracle := fun _ _ _ _ => sol7

/-- Configuration for the C7 scenario. -/
def cfg7 : Config := ⟨10, 1, 5, 0, 1, 0, 0⟩

/-- C7 (witness): on a concrete scenario whose model forecasts equal the
ground truth value for value, the scenario score is `some 0` and the
symmetry conjunct of the C7 theorem yields `0 = 0`. -/
theorem C7_nle_witness :
    run_nle_core oracle7 cfg7 gt7 wins7 = some 0 ∧ (0 : ℚ) = 0 := by
  have heval : run_nle_core oracle7 cfg7 gt7 wins7 = some 0 := by
    norm_num [run_nle_core, run_operations, opsAux, opStep, run_opt,
      calculate_operational_costs, dfs_mpc_gt, dfs_mpc_model, nle_normalize,
      gt_min, gt_max, oracle7, sol7, cfg7, gt7, wins7, win7, List.max?_cons,
      List.min?_cons, min_def, max_def]
  refine ⟨heval, (C7_nle_delta_and_symmetry oracle7 cfg7 gt7 wins7).2 ?_ 0 heval⟩
  intro w hw
  have hw2 : w = win7 ∨ w = win7 := by simpa [wins7] using hw
  rcases hw2 with rfl | rfl <;> rfl

/-- C8 (witness): the trace-shape theorem instantiated on the concrete C2
scenario: two windows give one row keyed `[1]`. -/
theorem C8_trace_shape_witness :
    (run_operations oracleC2 [w0C2, w1C2] cfgC2).map
        (fun rows => (rows.length, rows.map Row.time))
      = some (1, [1]) := by
  obtain ⟨rows, hr, hl, ht⟩ := C8_trace_shape oracleC2 [w0C2, w1C2] cfgC2
    (by norm_num)
    (by intro w hw
        have hw2 : w = w0C2 ∨ w = w1C2 := by simpa using hw
        rcases hw2 with rfl | rfl
        · exact ⟨by norm_num [w0C2], by simp [w0C2]⟩
        · exact ⟨by norm_num [w1C2], by simp [w1C2]⟩)
  rw [hr, Option.map_some']
  rw [hl, ht]
  rfl

/-- C9 (witness): the extraction theorem instantiated on a length-1 and a
length-2 forecast window. -/
theorem C9_run_opt_witness :
    run_opt oracleC1 [(1 : ℚ)] 0 0 cfgC1 = none
    ∧ run_opt oracleC1 [(1 : ℚ), 2] 0 0 cfgC1
      = some { net_load := 1, bss_p_ch := 0, bss_en := 0 } := by
  constructor
  · exact (C9_run_opt_extraction oracleC1 [(1 : ℚ)] 0 0 cfgC1).1 rfl
  · have h := (C9_run_opt_extraction oracleC1 [(1 : ℚ), 2] 0 0 cfgC1).2 (by norm_num)
    simpa [oracleC1, solC1] using h

/-- C10 (witness): the normalization theorem instantiated on the constant
ground-truth series `[2, 2]`. -/
theorem C10_normalization_witness :
    gt_max [(2 : ℚ), 2] - gt_min [(2 : ℚ), 2] = 0 := by
  refine ((C10_normalization_guard [(2 : ℚ), 2] (by simp)).1 ?_).1
  intro x hx y hy
  have hx2 : x = 2 := by simpa using hx
  have hy2 : y = 2 := by simpa using hy
  rw [hx2, hy2]
